import Mathlib

/-!
Shallow embedding of the hackathon tracker backend
(`deterministic_verifier.py`, `gh_tests.py`, `gh_test_db.py`, `db/db.py`).

Text is modelled as `List Char`.  Python regular-expression searches are
compiled by hand into scanning functions: each pattern used by the source is
simple enough (all unbounded repetitions range over single-character classes)
that backtracking is resolved statically, as noted at each definition.
Python `\s` is modelled on its ASCII whitespace characters, and Python
`IGNORECASE` / `str.lower()` via `Char.toLower` (they agree on ASCII, which is
the character range the tracker manipulates).
-/

abbrev Chars := List Char

/-- Python `\s` on the ASCII range: space, tab, newline, carriage return,
vertical tab, form feed. -/
def isPySpace (c : Char) : Bool :=
  c == ' ' || c == '\t' || c == '\n' || c == '\r' || c == '\x0b' || c == '\x0c'

/-- Case-insensitive character comparison, for regexes compiled with
`re.IGNORECASE`. -/
def charEqCI (a b : Char) : Bool := a.toLower == b.toLower

/-- Match a literal pattern at the head of the input, returning the rest. -/
def dropPfx? : Chars → Chars → Option Chars
  | [], s => some s
  | _ :: _, [] => none
  | p :: ps, c :: cs => if p == c then dropPfx? ps cs else none

/-- Case-insensitive variant of `dropPfx?`. -/
def dropPfxCI? : Chars → Chars → Option Chars
  | [], s => some s
  | _ :: _, [] => none
  | p :: ps, c :: cs => if charEqCI p c then dropPfxCI? ps cs else none

/-- Greedy `\s*` when the following pattern element cannot start with
whitespace (then the maximal skip is the only viable one). -/
def skipWs : Chars → Chars
  | [] => []
  | c :: cs => if isPySpace c then skipWs cs else c :: cs

/-- Greedy `\s+` (at least one whitespace character) when the following
pattern element cannot start with whitespace. -/
def skipWs1? : Chars → Option Chars
  | [] => none
  | c :: cs => if isPySpace c then some (skipWs cs) else none

/-- Python `str.strip()` restricted to ASCII whitespace. -/
def stripWs (s : Chars) : Chars := ((skipWs s).reverse |> skipWs).reverse

/-- Python substring containment `needle in hay` (empty needle matches). -/
def startsWithL : Chars → Chars → Bool
  | [], _ => true
  | _ :: _, [] => false
  | p :: ps, c :: cs => p == c && startsWithL ps cs

/-- Substring test used for Python `in` on strings. -/
def isSubstrOf (n : Chars) : Chars → Bool
  | [] => startsWithL n []
  | c :: t => startsWithL n (c :: t) || isSubstrOf n t

/-- Lazy `(.*?)` under `DOTALL` followed by a stop pattern: the group takes
the least prefix whose remainder satisfies `stop` (the regex engine grows a
lazy group one character at a time). -/
def scanLazy (stop : Chars → Bool) : Chars → Option Chars
  | [] => if stop [] then some [] else none
  | c :: cs =>
    if stop (c :: cs) then some []
    else (scanLazy stop cs).map (fun t => c :: t)

/-- Greedy `\s*` with full backtracking: tries the longest skip first, then
shorter ones, as the regex engine does when the following element may itself
start with whitespace. -/
def tryWs (f : Chars → Option Chars) : Chars → Option Chars
  | [] => f []
  | c :: cs =>
    if isPySpace c then
      match tryWs f cs with
      | some r => some r
      | none => f (c :: cs)
    else f (c :: cs)

/-! Section: `DeterministicVerifier._extract_bug_spec`.

Pattern 1 is `START\s+"{id}":\s*(.*?)\s*END\s+"{id}"` with
`DOTALL | IGNORECASE`.  After each `\s+`/`\s*` the next literal is a
non-whitespace character (`"`, `E`, or the lazy group boundary), so the
greedy whitespace runs are deterministic; the lazy group stops at the first
position where `\s*END\s+"{id}"` matches. -/

def endMatchesAt (bugId : Chars) (s : Chars) : Bool :=
  match dropPfxCI? (("END").toList) (skipWs s) with
  | none => false
  | some r =>
    match skipWs1? r with
    | none => false
    | some r2 => (dropPfxCI? (('"' :: bugId) ++ ['"']) r2).isSome

def startEndAt? (bugId : Chars) (s : Chars) : Option Chars :=
  (dropPfxCI? (("START").toList) s).bind fun r =>
  (skipWs1? r).bind fun r2 =>
  (dropPfxCI? (('"' :: bugId) ++ [ '"', ':' ]) r2).bind fun r3 =>
  scanLazy (endMatchesAt bugId) (skipWs r3)

/-- Leftmost search: `re.search` tries each start position in order. -/
def searchWith (pat : Chars → Option Chars) : Chars → Option Chars
  | [] => pat []
  | c :: cs =>
    match pat (c :: cs) with
    | some g => some g
    | none => searchWith pat cs

/-! The fallback pattern is written in the source as the f-string
`rf'#{1,3}\s*{re.escape(bug_id)}[:\s]+(.*?)(?=#{1,3}|\Z)'`.  Python's
f-string interpolation evaluates `{1,3}` as the tuple `(1, 3)`, so the
regex actually compiled is `#(1, 3)\s*{id}[:\s]+(.*?)(?=#(1, 3)|\Z)`:
a literal `#` followed by the literal text `1, 3` (in a capturing group),
then `\s*` (backtracking in full, since the escaped id may begin with
whitespace), the id, and at least one colon/whitespace character.  The
trailing `(.*?)(?=...)` always succeeds (under `DOTALL` the lazy group can
extend to the end of input, where `\Z` fires), and `match.group(1)` is the
first capturing group — the literal `(1, 3)` — so a successful fallback
always yields the text `1, 3`. -/

def isColonWs (c : Char) : Bool := c == ':' || isPySpace c

def headingLit : Chars := ("1, 3").toList

def skipColonWs1? : Chars → Option Chars
  | [] => none
  | c :: cs =>
    if isColonWs c then some (cs.dropWhile isColonWs) else none

def headingAt? (bugId : Chars) (s : Chars) : Option Chars :=
  (dropPfx? ('#' :: headingLit) s).bind fun r =>
  tryWs
    (fun r2 =>
      (dropPfxCI? bugId r2).bind fun r3 =>
      (skipColonWs1? r3).map (fun _ => headingLit))
    r

/-- Transcription of `DeterministicVerifier._extract_bug_spec`: the
delimiter-pair search, then the markdown-heading fallback, each stripped;
the empty string signals failure. -/
def extract_bug_spec (bugs_doc bugId : Chars) : Chars :=
  match searchWith (startEndAt? bugId) bugs_doc with
  | some g => stripWs g
  | none =>
    match searchWith (headingAt? bugId) bugs_doc with
    | some g => stripWs g
    | none => []

/-! Section: `DeterministicVerifier._extract_solution`.

Six patterns are tried in order; within each, `re.search` takes the
leftmost occurrence.  Patterns 1-4 share the fenced-code tail
`\s*<3 backticks>(?:python|)?\s*(.*?)\s*<3 backticks>`; pattern 5 is the
single-line form `SOLUTION:\s*([^\n]+)`; pattern 6 the inline-code form.
A match whose stripped group is empty falls through to the next pattern,
exactly as the source's `if solution: return solution` does. -/

def tickChar : Char := Char.ofNat 96

def ticks : Chars := [tickChar, tickChar, tickChar]

def ticksStop (s : Chars) : Bool := (dropPfx? ticks (skipWs s)).isSome

def fencedTail? (r : Chars) : Option Chars := scanLazy ticksStop (skipWs r)

def fencedAt? (s : Chars) : Option Chars :=
  (dropPfx? ticks (skipWs s)).bind fun r =>
    match (dropPfxCI? (("python").toList) r).bind fencedTail? with
    | some g => some g
    | none => fencedTail? r

/-- Greedy optional colon `:?`, trying the colon-consuming branch first. -/
def optColon (f : Chars → Option Chars) : Chars → Option Chars
  | [] => f []
  | c :: cs =>
    if c == ':' then
      match f cs with
      | some g => some g
      | none => f (c :: cs)
    else f (c :: cs)

/-- Greedy `[^\n]*`. -/
def takeLine : Chars → Chars
  | [] => []
  | c :: cs => if c == '\n' then [] else c :: takeLine cs

/-- Greedy `[^\n]+` (at least one character). -/
def takeLine1? : Chars → Option Chars
  | [] => none
  | c :: cs => if c == '\n' then none else some (c :: takeLine cs)

def nonTick (c : Char) : Bool := !(c == tickChar)

/-- Greedy `[^<backtick>]+` followed by a literal closing backtick. -/
def tickedBody? (s : Chars) : Option Chars :=
  match s.takeWhile nonTick, s.dropWhile nonTick with
  | [], _ => none
  | _, [] => none
  | run, _ :: _ => some run

def p1At? (s : Chars) : Option Chars :=
  (dropPfxCI? (("SOLUTION:").toList) s).bind fencedAt?

def p2At? (s : Chars) : Option Chars :=
  (dropPfxCI? (("## Solution").toList) s).bind fencedAt?

def p3At? (s : Chars) : Option Chars :=
  (dropPfxCI? (("Solution").toList) s).bind (optColon fencedAt?)

def p4At? (s : Chars) : Option Chars :=
  (dropPfxCI? (("Fix").toList) s).bind (optColon fencedAt?)

def p5At? (s : Chars) : Option Chars :=
  (dropPfxCI? (("SOLUTION:").toList) s).bind (tryWs takeLine1?)

def p6Core? (r : Chars) : Option Chars :=
  (dropPfx? [tickChar] (skipWs r)).bind tickedBody?

def p6At? (s : Chars) : Option Chars :=
  (dropPfxCI? (("Solution").toList) s).bind (optColon p6Core?)

def solutionPats : List (Chars → Option Chars) :=
  [p1At?, p2At?, p3At?, p4At?, p5At?, p6At?]

def tryPats : List (Chars → Option Chars) → Chars → Chars
  | [], _ => []
  | p :: ps, s =>
    match searchWith p s with
    | some g =>
      let sol := stripWs g
      if sol.isEmpty then tryPats ps s else sol
    | none => tryPats ps s

/-- Transcription of `DeterministicVerifier._extract_solution`. -/
def extract_solution (bug_spec : Chars) : Chars := tryPats solutionPats bug_spec

/-! Section: `DeterministicVerifier._extract_code_from_diff`.

The diff argument is an arbitrary JSON value; `extract_recursive` collects
string values found under the conventional keys of a dict (in the source's
key order), recurses into every dict value and list element, and picks up
any string containing a code-like indicator. -/

inductive Jx where
  | jstr (s : Chars)
  | jnum (n : Int)
  | jbool (b : Bool)
  | jnull
  | jarr (elems : List Jx)
  | jobj (fields : List (Chars × Jx))

def specialKeys : List Chars :=
  [("added").toList, ("new_code").toList, ("content").toList,
   ("changes").toList, ("diff").toList, ("code").toList]

def codeIndicators : List Chars :=
  [("def ").toList, ("class ").toList, ("import ").toList,
   ("=").toList, ("if ").toList, ("return").toList]

/-- Python `key in obj and isinstance(obj[key], str)` followed by the
lookup; JSON objects decoded by Python have unique keys, modelled here by
first-match lookup in the field list. -/
def lookupStr? (k : Chars) : List (Chars × Jx) → Option Chars
  | [] => none
  | (k2, v) :: rest =>
    if k2 == k then
      match v with
      | Jx.jstr s => some s
      | _ => none
    else lookupStr? k rest

def specialVals (fs : List (Chars × Jx)) : List Chars :=
  specialKeys.filterMap (fun k => lookupStr? k fs)

mutual
def extractRec : Jx → List Chars
  | Jx.jstr s =>
    if codeIndicators.any (fun ind => isSubstrOf ind s) then [s] else []
  | Jx.jnum _ => []
  | Jx.jbool _ => []
  | Jx.jnull => []
  | Jx.jarr xs => extractRecList xs
  | Jx.jobj fs => specialVals fs ++ extractRecFields fs
def extractRecFields : List (Chars × Jx) → List Chars
  | [] => []
  | (_, v) :: rest => extractRec v ++ extractRecFields rest
def extractRecList : List Jx → List Chars
  | [] => []
  | x :: rest => extractRec x ++ extractRecList rest
end

def joinNl : List Chars → Chars
  | [] => []
  | [x] => x
  | x :: y :: rest => x ++ '\n' :: joinNl (y :: rest)

/-- Transcription of `DeterministicVerifier._extract_code_from_diff`. -/
def extract_code_from_diff (diff_json : Jx) : Chars := joinNl (extractRec diff_json)

/-! Section: `DeterministicVerifier._normalize_code`.

Four `re.sub` passes: `#.*$` under `MULTILINE` (drop the rest of each line
from its first `#`), the lazy triple-quote bodies `""".*?"""` and
`'''.*?'''` under `DOTALL` (non-overlapping, leftmost, minimal body; an
opener without a closer is left in place and scanning advances one
character, as `re.sub` does), then `\s+` deleted, lowercasing, and quote
characters deleted. -/

def stripLineComment : Chars → Chars
  | [] => []
  | c :: cs => if c == '#' then [] else c :: stripLineComment cs

def splitNl : Chars → List Chars
  | [] => [[]]
  | c :: cs =>
    if c == '\n' then [] :: splitNl cs
    else
      match splitNl cs with
      | l :: ls => (c :: l) :: ls
      | [] => [[c]]

def removeHashComments (s : Chars) : Chars :=
  joinNl ((splitNl s).map stripLineComment)

/-- Scan for the closing triple quote; on success returns the rest after it,
with the length bound needed for the caller's termination. -/
def findClose3 (q : Char) : (s : Chars) → Option { r : Chars // r.length + 3 ≤ s.length }
  | a :: b :: c :: r =>
    if a == q && b == q && c == q then some ⟨r, by simp⟩
    else
      match findClose3 q (b :: c :: r) with
      | some ⟨t, ht⟩ => some ⟨t, by simp at ht ⊢; omega⟩
      | none => none
  | [_] => none
  | [_, _] => none
  | [] => none

/-- Worker for `remove3Q`, structurally recursive on a fuel bounded below by
the input length (every step consumes at least one character, so the fuel
never runs out on the `remove3Q` entry point). -/
def remove3QFuel (q : Char) : Nat → Chars → Chars
  | 0, s => s
  | _ + 1, [] => []
  | _ + 1, [a] => [a]
  | n + 1, [a, b] => a :: remove3QFuel q n [b]
  | n + 1, a :: b :: c :: r =>
    if a == q && b == q && c == q then
      match findClose3 q r with
      | some ⟨t, _⟩ => remove3QFuel q n t
      | none => a :: remove3QFuel q n (b :: c :: r)
    else a :: remove3QFuel q n (b :: c :: r)

def remove3Q (q : Char) (s : Chars) : Chars := remove3QFuel q s.length s

def squote : Char := Char.ofNat 39

/-- Transcription of `DeterministicVerifier._normalize_code`. -/
def normalize_code (code : Chars) : Chars :=
  let c1 := removeHashComments code
  let c2 := remove3Q '"' c1
  let c3 := remove3Q squote c2
  let c4 := c3.filter (fun c => !isPySpace c)
  let c5 := c4.map Char.toLower
  c5.filter (fun c => !(c == '"' || c == squote))

/-! Section: `DeterministicVerifier._fuzzy_match`.

The token regex `[a-zA-Z_][a-zA-Z0-9_]*|[><=!]+|[+\-*/]` is scanned with
`re.findall` semantics: alternatives tried in order at each position,
non-overlapping, greedy runs.  The float threshold `len(tokens) * 0.8`
compared against an integer count is modelled exactly by the rational
inequality `5 * matches >= 4 * len`. -/

def isIdentStart (c : Char) : Bool := c.isAlpha || c == '_'

def isIdentChar (c : Char) : Bool := isIdentStart c || c.isDigit

def isCmpChar (c : Char) : Bool := c == '>' || c == '<' || c == '=' || c == '!'

def isArithChar (c : Char) : Bool := c == '+' || c == '-' || c == '*' || c == '/'

/-- Worker for `findTokens`, structurally recursive on a fuel bounded below
by the input length. -/
def findTokensFuel : Nat → Chars → List Chars
  | 0, _ => []
  | _ + 1, [] => []
  | n + 1, c :: cs =>
    if isIdentStart c then
      (c :: cs.takeWhile isIdentChar) :: findTokensFuel n (cs.dropWhile isIdentChar)
    else if isCmpChar c then
      (c :: cs.takeWhile isCmpChar) :: findTokensFuel n (cs.dropWhile isCmpChar)
    else if isArithChar c then
      [c] :: findTokensFuel n cs
    else
      findTokensFuel n cs

def findTokens (s : Chars) : List Chars := findTokensFuel s.length s

def extract_tokens (text : Chars) : List Chars :=
  ((findTokens text).filter (fun t => t.length > 1)).map (fun t => t.map Char.toLower)

/-- Transcription of `DeterministicVerifier._fuzzy_match`. -/
def fuzzy_match (solution code : Chars) : Bool :=
  let solution_tokens := extract_tokens solution
  let code_tokens := extract_tokens code
  if solution_tokens.isEmpty then false
  else
    let matchCount := (solution_tokens.filter (fun t => code_tokens.contains t)).length
    decide (5 * matchCount ≥ 4 * solution_tokens.length)

/-! Section: `DeterministicVerifier._pattern_match`.

`re.findall(r'([><=!]+)\s*([0-9.]+)', solution)` collects operator/number
pairs (greedy runs; the `\s*` is deterministic because digits and dots are
not whitespace; a failed start position advances by one character).  Each
pair is then searched verbatim, up to interior whitespace, in the
unnormalized participant code; the loop returns `False` on the first
missing pair and otherwise `len(comparisons) > 0`. -/

def isNumChar (c : Char) : Bool := c.isDigit || c == '.'

/-- Worker for `findComparisons`, structurally recursive on a fuel bounded
below by the input length. -/
def findComparisonsFuel : Nat → Chars → List (Chars × Chars)
  | 0, _ => []
  | _ + 1, [] => []
  | n + 1, c :: cs =>
    if isCmpChar c then
      match (cs.dropWhile isCmpChar).dropWhile isPySpace with
      | d :: ds =>
        if isNumChar d then
          (c :: cs.takeWhile isCmpChar, d :: ds.takeWhile isNumChar)
            :: findComparisonsFuel n (ds.dropWhile isNumChar)
        else findComparisonsFuel n cs
      | [] => findComparisonsFuel n cs
    else findComparisonsFuel n cs

def findComparisons (s : Chars) : List (Chars × Chars) := findComparisonsFuel s.length s

/-- Search for one comparison pair `op\s*value` in the participant code. -/
def cmpPairAt (opv : Chars × Chars) (s : Chars) : Bool :=
  ((dropPfx? opv.1 s).bind (fun r => dropPfx? opv.2 (skipWs r))).isSome

def searchCmpPair (opv : Chars × Chars) : Chars → Bool
  | [] => cmpPairAt opv []
  | c :: cs => cmpPairAt opv (c :: cs) || searchCmpPair opv cs

/-- The source's loop body: `False` as soon as a pair is missing. -/
def patternCheck (pairs : List (Chars × Chars)) (code : Chars) : Bool :=
  match pairs with
  | [] => true
  | p :: rest => if searchCmpPair p code then patternCheck rest code else false

/-- Transcription of `DeterministicVerifier._pattern_match`: all pairs must
be found, and the final `return len(comparisons) > 0` makes the empty case
`False`. -/
def pattern_match (solution code : Chars) : Bool :=
  let comparisons := findComparisons solution
  patternCheck comparisons code && decide (comparisons.length > 0)

/-- Transcription of `DeterministicVerifier.verify_bug_fix`: the chain of
extractions (any empty result defers to the LLM with `None`), then the
normalized-substring check, the token-overlap heuristic and the
comparison-pattern check, each returning `True`; otherwise `None`.  The
source's `except` arm is unreachable in this pure model. -/
def verify_bug_fix (bugs_doc : Chars) (bug_diff_json : Jx) (bug_to_check : Chars) :
    Option Bool :=
  let bug_spec := extract_bug_spec bugs_doc bug_to_check
  if bug_spec.isEmpty then none
  else
    let solution := extract_solution bug_spec
    if solution.isEmpty then none
    else
      let participant_code := extract_code_from_diff bug_diff_json
      if participant_code.isEmpty then none
      else
        let normalized_solution := normalize_code solution
        let normalized_participant := normalize_code participant_code
        if isSubstrOf normalized_solution normalized_participant then some true
        else if fuzzy_match normalized_solution normalized_participant then some true
        else if pattern_match solution participant_code then some true
        else none

/-! Section: `gh_tests.py` / `gh_test_db.py` — webhook server model.

External effects (GitHub CLI points lookup, `git clone` diff extraction,
domain bug files, the LLM backend HTTP call, and the wall clock) are
supplied by a `VerifyEnv` of oracle functions; everything the server
computes from their answers is transcribed from the source. -/

/-- Python string `<` (lexicographic by code point, a strict prefix being
smaller), used on ISO timestamps; this is the lexicographic order on
`List Char`. -/
def lexLt (a b : Chars) : Bool := decide (a < b)

def lexLe (a b : Chars) : Bool := !(lexLt b a)

/-! Transcription of `extract_bug_id`: the patterns `bug[#\s]*(\d+)`,
`fix[#\s]*(\d+)`, `#(\d+)`, `BUG[#\s]*(\d+)` are searched in order with
`IGNORECASE`; `[#\s]*` is deterministic because digits are neither `#` nor
whitespace. -/

def isHashWs (c : Char) : Bool := c == '#' || isPySpace c

def digitRun1? : Chars → Option Chars
  | [] => none
  | c :: cs => if c.isDigit then some (c :: cs.takeWhile Char.isDigit) else none

def natOfDigits (ds : Chars) : Nat :=
  ds.foldl (fun n c => 10 * n + (c.toNat - 48)) 0

def bugKwAt? (kw : Chars) (s : Chars) : Option Nat :=
  (dropPfxCI? kw s).bind fun r =>
    (digitRun1? (r.dropWhile isHashWs)).map natOfDigits

def hashNumAt? (s : Chars) : Option Nat :=
  (dropPfx? [ '#' ] s).bind fun r => (digitRun1? r).map natOfDigits

def searchNum (pat : Chars → Option Nat) : Chars → Option Nat
  | [] => pat []
  | c :: cs =>
    match pat (c :: cs) with
    | some n => some n
    | none => searchNum pat cs

def extract_bug_id (message : Chars) : Option Nat :=
  match searchNum (bugKwAt? (("bug").toList)) message with
  | some n => some n
  | none =>
    match searchNum (bugKwAt? (("fix").toList)) message with
    | some n => some n
    | none =>
      match searchNum hashNumAt? message with
      | some n => some n
      | none => searchNum (bugKwAt? (("BUG").toList)) message

/-- One bug record from `domains/<domain>/bugs.json`. -/
structure BugDesc where
  description : Chars
  expected : Chars
  current : Chars
  files : Chars
  solution : Chars

/-- Oracle functions for the server's external calls. -/
structure VerifyEnv where
  bugPoints : Chars → Nat → Nat
  codeChanges : Chars → Chars → Option (List Jx)
  bugDescription : Chars → Nat → Option BugDesc
  llmResponse : List Jx → BugDesc → Nat → Chars × Chars
  now : Chars

/-- One submission record, as written to `teams/<t>/bug-fixes/bug-<n>.json`. -/
structure Submission where
  team_id : Chars
  bug_id : Nat
  domain : Chars
  commit_hash : Chars
  commit_message : Chars
  submission_time : Chars
  verified : Bool
  points : Nat
  llm_verification : Chars
  llm_verified : Bool
  verification_method : Chars
deriving DecidableEq

/-- The server's `f'"BUG{bug_id}": "true"'` acceptance marker. -/
def bugTrueKeyA (bug_id : Nat) : Chars :=
  ("\"BUG").toList ++ (Nat.repr bug_id).toList ++ ("\": \"true\"").toList

/-- The `f'"BUG{bug_id}":"true"'` variant (no space). -/
def bugTrueKeyB (bug_id : Nat) : Chars :=
  ("\"BUG").toList ++ (Nat.repr bug_id).toList ++ ("\":\"true\"").toList

/-- Transcription of `HackathonTracker.log_bug_fix` (the submission record
it writes): the LLM path runs only when both the extracted code changes and
the bug description are truthy (a `None` or an empty list is falsy), and
points are awarded only on a verified response. -/
def log_bug_fix (env : VerifyEnv) (team_id : Chars) (bug_id : Nat) (domain : Chars)
    (commit_hash commit_message full_repo_name : Chars) : Submission :=
  let points := env.bugPoints full_repo_name bug_id
  let st :=
    match env.codeChanges full_repo_name commit_hash, env.bugDescription domain bug_id with
    | some (c :: cc), some bd =>
      let resp := env.llmResponse (c :: cc) bd bug_id
      let ok := isSubstrOf (bugTrueKeyA bug_id) resp.1 ||
                isSubstrOf (bugTrueKeyB bug_id) resp.1
      (ok, resp.1, resp.2)
    | _, _ => (false, ("pending").toList, ("none").toList)
  { team_id := team_id
    bug_id := bug_id
    domain := domain
    commit_hash := commit_hash
    commit_message := commit_message
    submission_time := env.now
    verified := st.1
    points := if st.1 then points else 0
    llm_verification := st.2.1
    llm_verified := st.1
    verification_method := st.2.2 }

structure CommitInfo where
  id : Chars
  message : Chars

structure RepoInfo where
  name : Option Chars
  full_name : Option Chars

structure PushPayload where
  repository : Option RepoInfo
  commits : List CommitInfo

inductive WebhookResponse where
  | ignoredNotPush
  | errorEmptyPayload
  | errorNoRepoName
  | ignoredNotTeamRepo
  | errorInvalidFormat
  | processed (team_id : Chars) (commits_processed : Nat)
deriving DecidableEq

/-- Python `str.split(sep)` for a one-character separator. -/
def splitOnC (sep : Char) : Chars → List Chars
  | [] => [[]]
  | c :: cs =>
    if c == sep then [] :: splitOnC sep cs
    else
      match splitOnC sep cs with
      | l :: ls => (c :: l) :: ls
      | [] => [[c]]

/-- The per-commit loop of `handle_github_webhook`: each commit whose
message yields a truthy bug id is logged (one submission file write, keyed
by team and bug id) and counted.  The source guards with `if bug_id:` —
Python falsiness — so both a missing id (`None`) and an extracted id of `0`
skip the commit. -/
def processCommits (env : VerifyEnv) (team_id domain full_repo_name : Chars) :
    List CommitInfo → Nat × List ((Chars × Nat) × Submission)
  | [] => (0, [])
  | c :: cs =>
    match extract_bug_id c.message with
    | some bug_id =>
      if bug_id == 0 then processCommits env team_id domain full_repo_name cs
      else
        let sub := log_bug_fix env team_id bug_id domain c.id c.message full_repo_name
        let rest := processCommits env team_id domain full_repo_name cs
        (rest.1 + 1, ((team_id, bug_id), sub) :: rest.2)
    | none => processCommits env team_id domain full_repo_name cs

/-- Transcription of `handle_github_webhook`: non-push events are ignored,
the repository name must exist and start with `team-`, the hyphen-split
name must have at least three parts (`team-<id>-<domain>`), then each
commit is processed.  The result pairs the HTTP response with the list of
submission-file writes, keyed by `(team_id, bug_id)`.  A missing
`full_name` is modelled as the empty string. -/
def handle_github_webhook (env : VerifyEnv) (event : Chars)
    (payload : Option PushPayload) : WebhookResponse × List ((Chars × Nat) × Submission) :=
  if !(event == ("push").toList) then (WebhookResponse.ignoredNotPush, [])
  else
    match payload with
    | none => (WebhookResponse.errorEmptyPayload, [])
    | some p =>
      match p.repository.bind RepoInfo.name with
      | none => (WebhookResponse.errorNoRepoName, [])
      | some rn =>
        if rn.isEmpty then (WebhookResponse.errorNoRepoName, [])
        else if !(startsWithL (("team-").toList) rn) then
          (WebhookResponse.ignoredNotTeamRepo, [])
        else
          match splitOnC '-' rn with
          | _ :: team_id :: domain :: _ =>
            let full := ((p.repository.bind RepoInfo.full_name).getD [])
            let res := processCommits env team_id domain full p.commits
            (WebhookResponse.processed team_id res.1, res.2)
          | _ => (WebhookResponse.errorInvalidFormat, [])

/-! Section: progress and leaderboard recomputation (identical in
`gh_tests.py` and `gh_test_db.py`). -/

/-- One team's aggregate, as written to `teams/<t>/progress.json`. -/
structure Progress where
  team_id : Chars
  total_submissions : Nat
  verified_submissions : Nat
  total_points : Nat
  last_submission : Option Chars
  submissions : List Submission
  domain : Chars
deriving DecidableEq

/-- One iteration of the `update_progress` loop over a team's submission
files: append the submission, take its domain, count it when verified, and
keep the latest timestamp (`if not progress["last_submission"] or ts > ...`;
`None` and the empty string are both falsy). -/
def progressStep (p : Progress) (sub : Submission) : Progress :=
  let p1 := { p with submissions := p.submissions ++ [sub], domain := sub.domain }
  let p2 :=
    if sub.verified then
      { p1 with verified_submissions := p1.verified_submissions + 1,
                total_points := p1.total_points + sub.points }
    else p1
  match p2.last_submission with
  | none => { p2 with last_submission := some sub.submission_time }
  | some t =>
    if t.isEmpty || lexLt t sub.submission_time then
      { p2 with last_submission := some sub.submission_time }
    else p2

/-- Transcription of `HackathonTracker.update_progress` as a function of the
team's submission files (in directory-listing order). -/
def update_progress (team_id : Chars) (subs : List Submission) : Progress :=
  subs.foldl progressStep
    { team_id := team_id
      total_submissions := subs.length
      verified_submissions := 0
      total_points := 0
      last_submission := none
      submissions := []
      domain := ("unknown").toList }

/-- One leaderboard row of `leaderboard.json`. -/
structure LBEntry where
  team_id : Chars
  bugs_solved : Nat
  total_points : Nat
  last_submission : Option Chars
  domain : Chars
  rank : Nat
deriving DecidableEq

def progressToEntry (p : Progress) : LBEntry :=
  { team_id := p.team_id
    bugs_solved := p.verified_submissions
    total_points := p.total_points
    last_submission := p.last_submission
    domain := p.domain
    rank := 0 }

/-- The sort key's timestamp component, `x["last_submission"] or ""`. -/
def tsKey (e : LBEntry) : Chars := e.last_submission.getD []

/-- The comparison realizing Python's stable ascending sort by
`(-total_points, last_submission or "")`. -/
def lbLe (a b : LBEntry) : Bool :=
  decide (b.total_points < a.total_points) ||
    (a.total_points == b.total_points && lexLe (tsKey a) (tsKey b))

/-- Transcription of `HackathonTracker.update_leaderboard` as a function of
the teams' progress files (in directory-listing order): build one entry per
progress record, sort by points descending breaking ties by earliest last
submission (Python's stable `list.sort`, modelled by the stable
`List.mergeSort`), then number ranks `1..n` as `enumerate(..., 1)` does. -/
def compute_leaderboard (ps : List Progress) : List LBEntry :=
  let entries := ps.map progressToEntry
  let sorted := entries.mergeSort lbLe
  sorted.enum.map (fun ie => { ie.2 with rank := ie.1 + 1 })

/-- The tracker's file-system state relevant to leaderboard recomputation:
the progress files and the leaderboard file.  `update_leaderboard` reads
only the former and replaces the latter wholesale. -/
structure TrackerFs where
  progressFiles : List Progress
  leaderboardFile : List LBEntry
deriving DecidableEq

def update_leaderboard_fs (s : TrackerFs) : TrackerFs :=
  { s with leaderboardFile := compute_leaderboard s.progressFiles }

/-! Section: the two database sync paths.

`db/db.py`'s `upsert_leaderboard` clears the collection on an empty list
and otherwise upserts each entry keyed by `team_id` and then deletes every
row whose `team_id` is not among the input's ids
(`delete_many({"team_id": {"$nin": ...}})`); `gh_test_db.py`'s
`update_mongodb_leaderboard` skips the database entirely on an empty list
and otherwise only upserts, never deleting.  The collection is modelled as
a map from `team_id` to its row; rows carry no `updated_at` field (both
sides would stamp the same clock).  `db/db.py` keys an entry by
`entry.get("team_id") or entry.get("team") or entry.get("id")`; leaderboard
entries always carry `team_id`, so only the falsy (empty) check remains. -/

def Db := Chars → Option LBEntry

def upsert1 (tid : Chars) (e : LBEntry) (d : Db) : Db :=
  fun k => if k == tid then some e else d k

def upsertAll (lb : List LBEntry) (d : Db) : Db :=
  lb.foldl (fun acc e => if e.team_id.isEmpty then acc else upsert1 e.team_id e acc) d

def teamIdsOf (lb : List LBEntry) : List Chars :=
  (lb.filter (fun e => !e.team_id.isEmpty)).map LBEntry.team_id

/-- Transcription of `db/db.py` `upsert_leaderboard`. -/
def upsert_leaderboard (lb : List LBEntry) (d : Db) : Db :=
  if lb.isEmpty then fun _ => none
  else fun k => if (teamIdsOf lb).contains k then upsertAll lb d k else none

/-- Transcription of `gh_test_db.py` `update_mongodb_leaderboard` (with the
MongoDB connection available). -/
def update_mongodb_leaderboard (lb : List LBEntry) (d : Db) : Db :=
  if lb.isEmpty then d else upsertAll lb d

/-! Section: the manual re-verification endpoint (`manually_verify_bug`,
identical submission-update logic in both server files).  Only the
single-spaced `f'"BUG{bug_id}": "true"'` marker is checked on this path,
and `submission['points']` is kept on a true verdict
(`submission.get('points', 0) if llm_verified else 0`) and zeroed on a
false one. -/

def reverifySubmission (s : Submission) (llm_response method : Chars) (bug_id : Nat) :
    Submission :=
  let llm_verified := isSubstrOf (bugTrueKeyA bug_id) llm_response
  { s with llm_verification := llm_response
           llm_verified := llm_verified
           verified := llm_verified
           verification_method := method
           points := if llm_verified then s.points else 0 }

/-! Concrete inputs used by witness theorems. -/

def wDocC3 : Chars := ("START \"b1\": SOLUTION: +aa+bb>=cc\nEND \"b1\"").toList

def wDiffC3 : Jx := Jx.jobj [(("added").toList, Jx.jstr (("+aa+bb>=cc").toList))]

def wBugC3 : Chars := ("b1").toList

def wPayloadC7 : PushPayload :=
  { repository := some { name := some (("team-7-nlp").toList)
                         full_name := some (("org/team-7-nlp").toList) }
    commits := [{ id := ("abc123").toList, message := ("fix bug#3").toList }] }

def wRowC8 : LBEntry :=
  { team_id := ("t1").toList, bugs_solved := 1, total_points := 10,
    last_submission := none, domain := ("nlp").toList, rank := 1 }

/-- A database holding one leaderboard row, for exhibiting the divergence
of the two sync paths on an empty leaderboard list. -/
def wDbC8 : Db := fun k => if k == ("t1").toList then some wRowC8 else none

def wSubC10 : Submission :=
  { team_id := ("7").toList, bug_id := 3, domain := ("nlp").toList,
    commit_hash := ("abc").toList, commit_message := ("fix bug#3").toList,
    submission_time := ("2024-01-01T00:00:00").toList, verified := false, points := 0,
    llm_verification := ("\x7b\x7d").toList, llm_verified := false,
    verification_method := ("none").toList }

def wRespC10 : Chars := ("\x7b\"BUG3\": \"true\"\x7d").toList

def wProgA : Progress :=
  { team_id := ("a").toList, total_submissions := 1, verified_submissions := 1,
    total_points := 10, last_submission := some (("2024-01-02").toList),
    submissions := [], domain := ("nlp").toList }

def wProgB : Progress :=
  { team_id := ("b").toList, total_submissions := 2, verified_submissions := 2,
    total_points := 20, last_submission := some (("2024-01-01").toList),
    submissions := [], domain := ("cv").toList }

def wEntryI : LBEntry :=
  { team_id := ("b").toList, bugs_solved := 2, total_points := 20,
    last_submission := some (("2024-01-01").toList), domain := ("cv").toList, rank := 1 }

def wEntryJ : LBEntry :=
  { team_id := ("a").toList, bugs_solved := 1, total_points := 10,
    last_submission := some (("2024-01-02").toList), domain := ("nlp").toList, rank := 2 }

/-! Theorems.  Helper lemmas first, then one theorem per claim (with a
closed witness wherever a claim's theorem carries hypotheses). -/

theorem patternCheck_eq_all (pairs : List (Chars × Chars)) (code : Chars) :
    patternCheck pairs code = pairs.all (fun p => searchCmpPair p code) := by
  induction pairs with
  | nil => rfl
  | cons p rest ih =>
    simp only [patternCheck, List.all_cons, ih]
    by_cases h : searchCmpPair p code <;> simp [h]

/-- C1: for every input triple, `DeterministicVerifier.verify_bug_fix`
returns either `True` or the uncertain sentinel `None`; no input yields
`False`. -/
theorem verify_bug_fix_never_false (bugs_doc : Chars) (bug_diff_json : Jx)
    (bug_to_check : Chars) :
    verify_bug_fix bugs_doc bug_diff_json bug_to_check ≠ some false := by
  unfold verify_bug_fix
  repeat' split
  all_goals try simp
  all_goals intro h1 h2 h3
  all_goals repeat' split
  all_goals simp

/-- C4: the comparison-pattern check succeeds exactly when the solution
contains at least one comparison-operator/numeric-literal pair and every
such pair also occurs (operator, optional whitespace, literal) in the raw
diff text; with no pair it returns `False`, never vacuously `True`. -/
theorem pattern_match_iff_pairs (solution code : Chars) :
    pattern_match solution code = true ↔
      (findComparisons solution ≠ [] ∧
        ∀ p ∈ findComparisons solution, searchCmpPair p code = true) := by
  unfold pattern_match
  simp only [patternCheck_eq_all, Bool.and_eq_true, decide_eq_true_eq, List.all_eq_true,
    List.length_pos]
  tauto

/-- C5: when neither the START/END delimiter-pair regex nor the fallback
regex matches the requested bug id anywhere in the documentation string,
`verify_bug_fix` returns the uncertain sentinel `None`. -/
theorem missing_bug_spec_yields_uncertain (bugs_doc : Chars) (bug_diff_json : Jx)
    (bug_to_check : Chars)
    (h1 : searchWith (startEndAt? bug_to_check) bugs_doc = none)
    (h2 : searchWith (headingAt? bug_to_check) bugs_doc = none) :
    verify_bug_fix bugs_doc bug_diff_json bug_to_check = none := by
  have hspec : extract_bug_spec bugs_doc bug_to_check = [] := by
    unfold extract_bug_spec
    rw [h1, h2]
  unfold verify_bug_fix
  simp [hspec]

/-- Witness for C5 at a concrete documentation string with no marker. -/
theorem missing_bug_spec_yields_uncertain_witness :
    verify_bug_fix (("no markers anywhere in this text").toList) Jx.jnull
      (("bug1").toList) = none :=
  missing_bug_spec_yields_uncertain (("no markers anywhere in this text").toList)
    Jx.jnull (("bug1").toList) (by decide) (by decide)

/-- C6: once the bug block is found and its extracted solution is the
single-line `x >= 5`, a diff whose flattened text's normalization contains
the normalized solution as a literal substring makes `verify_bug_fix`
return `True`. -/
theorem solution_substring_yields_true (bugs_doc : Chars) (bug_diff_json : Jx)
    (bug_to_check : Chars)
    (hspec : extract_bug_spec bugs_doc bug_to_check ≠ [])
    (hsol : extract_solution (extract_bug_spec bugs_doc bug_to_check) = ("x >= 5").toList)
    (hcode : extract_code_from_diff bug_diff_json ≠ [])
    (hsub : isSubstrOf (normalize_code (("x >= 5").toList))
        (normalize_code (extract_code_from_diff bug_diff_json)) = true) :
    verify_bug_fix bugs_doc bug_diff_json bug_to_check = some true := by
  unfold verify_bug_fix
  simp_all [List.isEmpty_iff]

/-- Witness for C6: a documentation block carrying `SOLUTION: x >= 5` and a
diff whose added line contains `x >= 5`. -/
theorem solution_substring_yields_true_witness :
    verify_bug_fix (("START \"bug9\": SOLUTION: x >= 5\nEND \"bug9\"").toList)
      (Jx.jobj [(("added").toList, Jx.jstr (("if x >= 5:").toList))])
      (("bug9").toList) = some true :=
  solution_substring_yields_true (("START \"bug9\": SOLUTION: x >= 5\nEND \"bug9\"").toList)
    (Jx.jobj [(("added").toList, Jx.jstr (("if x >= 5:").toList))])
    (("bug9").toList) (by decide) (by decide) (by decide) (by decide)

/-- C9: leaderboard recomputation is idempotent — with the progress files
unchanged, running `update_leaderboard` twice leaves exactly the state the
first run produced (same entries, same order, same ranks). -/
theorem update_leaderboard_idempotent (s : TrackerFs) :
    update_leaderboard_fs (update_leaderboard_fs s) = update_leaderboard_fs s := rfl

/-- C3: when the pipeline reaches the heuristics and at least 80% of the
(multi-character, lowercased) tokens of the normalized solution occur among
the normalized diff's tokens — with at least two such tokens — the
token-overlap heuristic passes and `verify_bug_fix` returns `True`.
Case and whitespace/comment formatting cannot break the hypothesis because
both sides are compared after `_normalize_code` and token lowercasing. -/
theorem fuzzy_overlap_yields_true (bugs_doc : Chars) (bug_diff_json : Jx) (bug_to_check : Chars)
    (hspec : extract_bug_spec bugs_doc bug_to_check ≠ [])
    (hsol : extract_solution (extract_bug_spec bugs_doc bug_to_check) ≠ [])
    (hcode : extract_code_from_diff bug_diff_json ≠ [])
    (hN : 2 ≤ (extract_tokens (normalize_code
        (extract_solution (extract_bug_spec bugs_doc bug_to_check)))).length)
    (hfrac : 4 * (extract_tokens (normalize_code
        (extract_solution (extract_bug_spec bugs_doc bug_to_check)))).length ≤
      5 * ((extract_tokens (normalize_code
        (extract_solution (extract_bug_spec bugs_doc bug_to_check)))).filter
          (fun t => (extract_tokens (normalize_code
            (extract_code_from_diff bug_diff_json))).contains t)).length) :
    fuzzy_match (normalize_code (extract_solution (extract_bug_spec bugs_doc bug_to_check)))
        (normalize_code (extract_code_from_diff bug_diff_json)) = true ∧
      verify_bug_fix bugs_doc bug_diff_json bug_to_check = some true := by
  have hne : extract_tokens (normalize_code
      (extract_solution (extract_bug_spec bugs_doc bug_to_check))) ≠ [] := by
    intro h
    rw [h] at hN
    simp at hN
  have hfz : fuzzy_match (normalize_code (extract_solution (extract_bug_spec bugs_doc bug_to_check)))
      (normalize_code (extract_code_from_diff bug_diff_json)) = true := by
    unfold fuzzy_match
    simp only [List.isEmpty_iff, if_neg hne, decide_eq_true_eq, ge_iff_le]
    omega
  refine ⟨hfz, ?_⟩
  unfold verify_bug_fix
  simp [hspec, hsol, hcode, hfz, List.isEmpty_iff]

/-- Witness for C3: the solution `+aa+bb>=cc` has the four tokens
`aa`, `bb`, `>=`, `cc`, all of which occur among the diff's tokens. -/
theorem fuzzy_overlap_yields_true_witness :
    fuzzy_match (normalize_code (extract_solution (extract_bug_spec wDocC3 wBugC3)))
        (normalize_code (extract_code_from_diff wDiffC3)) = true ∧
      verify_bug_fix wDocC3 wDiffC3 wBugC3 = some true :=
  fuzzy_overlap_yields_true wDocC3 wDiffC3 wBugC3
    (by decide) (by decide) (by decide) (by decide) (by decide)

theorem progressStep_verified_submissions (p : Progress) (sub : Submission) :
    (progressStep p sub).verified_submissions =
      p.verified_submissions + (if sub.verified then 1 else 0) := by
  unfold progressStep
  split <;> cases hls : p.last_submission <;>
    simp [apply_ite Progress.verified_submissions]

theorem progressStep_total_points (p : Progress) (sub : Submission) :
    (progressStep p sub).total_points =
      p.total_points + (if sub.verified then sub.points else 0) := by
  unfold progressStep
  split <;> cases hls : p.last_submission <;>
    simp [apply_ite Progress.total_points]

/-- C10: re-verification never raises a submission's stored points — they
are kept on a true verdict and zeroed on a false one — and a submission
stored unverified with zero points that re-verifies true ends verified with
zero points, so the recomputed progress gains one verified submission and
no points. -/
theorem reverify_never_increases_points (s : Submission) (resp method : Chars)
    (bug_id : Nat) (others : List Submission) (tid : Chars)
    (hv : s.verified = false) (hp : s.points = 0)
    (hok : isSubstrOf (bugTrueKeyA bug_id) resp = true) :
    (∀ (s2 : Submission) (r2 m2 : Chars) (b2 : Nat),
        (reverifySubmission s2 r2 m2 b2).points ≤ s2.points) ∧
    (reverifySubmission s resp method bug_id).verified = true ∧
    (reverifySubmission s resp method bug_id).points = 0 ∧
    (update_progress tid (others ++ [reverifySubmission s resp method bug_id])).verified_submissions
      = (update_progress tid (others ++ [s])).verified_submissions + 1 ∧
    (update_progress tid (others ++ [reverifySubmission s resp method bug_id])).total_points
      = (update_progress tid (others ++ [s])).total_points := by
  have hmono : ∀ (s2 : Submission) (r2 m2 : Chars) (b2 : Nat),
      (reverifySubmission s2 r2 m2 b2).points ≤ s2.points := by
    intro s2 r2 m2 b2
    show (if isSubstrOf (bugTrueKeyA b2) r2 = true then s2.points else 0) ≤ s2.points
    split <;> simp
  have hver : (reverifySubmission s resp method bug_id).verified = true := by
    simp [reverifySubmission, hok]
  have hpts : (reverifySubmission s resp method bug_id).points = 0 := by
    simp [reverifySubmission, hok, hp]
  refine ⟨hmono, hver, hpts, ?_, ?_⟩ <;>
  · unfold update_progress
    rw [List.foldl_append, List.foldl_append]
    simp only [List.length_append, List.length_cons, List.length_nil, List.foldl_cons,
      List.foldl_nil, progressStep_verified_submissions, progressStep_total_points,
      hver, hpts, hv, hp]
    simp

/-- Witness for C10 at a concrete unverified zero-point submission and an
accepting LLM response. -/
theorem reverify_never_increases_points_witness :
    (∀ (s2 : Submission) (r2 m2 : Chars) (b2 : Nat),
        (reverifySubmission s2 r2 m2 b2).points ≤ s2.points) ∧
    (reverifySubmission wSubC10 wRespC10 (("llm").toList) 3).verified = true ∧
    (reverifySubmission wSubC10 wRespC10 (("llm").toList) 3).points = 0 ∧
    (update_progress (("7").toList)
        ([] ++ [reverifySubmission wSubC10 wRespC10 (("llm").toList) 3])).verified_submissions
      = (update_progress (("7").toList) ([] ++ [wSubC10])).verified_submissions + 1 ∧
    (update_progress (("7").toList)
        ([] ++ [reverifySubmission wSubC10 wRespC10 (("llm").toList) 3])).total_points
      = (update_progress (("7").toList) ([] ++ [wSubC10])).total_points :=
  reverify_never_increases_points wSubC10 wRespC10 (("llm").toList) 3 [] (("7").toList)
    (by decide) (by decide) (by decide)

theorem upsertAll_isSome (lb : List LBEntry) (d : Db) (tid : Chars)
    (h : (d tid).isSome = true) : (upsertAll lb d tid).isSome = true := by
  induction lb generalizing d with
  | nil => exact h
  | cons e rest ih =>
    have hstep : ((if e.team_id.isEmpty then d else upsert1 e.team_id e d) tid).isSome = true := by
      split
      · exact h
      · unfold upsert1
        split
        · simp
        · exact h
    have hrec := ih _ hstep
    simpa [upsertAll, List.foldl_cons] using hrec

/-- C8: the two leaderboard sync paths are not equivalent — db/db.py's
`upsert_leaderboard` removes every row whose team id is absent from the
input list (clearing the collection when the list is empty), while
gh_test_db.py's `update_mongodb_leaderboard` never deletes a row and skips
the database on an empty list; the two differ on an empty list over a
non-empty collection. -/
theorem leaderboard_sync_divergence (lb : List LBEntry) (d : Db) (tid : Chars)
    (row : LBEntry)
    (habsent : (teamIdsOf lb).contains tid = false)
    (hrow : d tid = some row) :
    upsert_leaderboard lb d tid = none ∧
    (∃ row2, update_mongodb_leaderboard lb d tid = some row2) ∧
    update_mongodb_leaderboard [] d tid = d tid ∧
    upsert_leaderboard [] wDbC8 (("t1").toList) = none ∧
    update_mongodb_leaderboard [] wDbC8 (("t1").toList) = some wRowC8 := by
  refine ⟨?_, ?_, rfl, rfl, rfl⟩
  · unfold upsert_leaderboard
    split
    · rfl
    · simp only [habsent]
      simp
  · unfold update_mongodb_leaderboard
    split
    · exact ⟨row, hrow⟩
    · have hsome := upsertAll_isSome lb d tid (by simp [hrow])
      exact Option.isSome_iff_exists.mp hsome

/-- Witness for C8 at the one-row database and the empty leaderboard
list. -/
theorem leaderboard_sync_divergence_witness :
    upsert_leaderboard [] wDbC8 (("t1").toList) = none ∧
    (∃ row2, update_mongodb_leaderboard [] wDbC8 (("t1").toList) = some row2) ∧
    update_mongodb_leaderboard [] wDbC8 (("t1").toList) = wDbC8 (("t1").toList) ∧
    upsert_leaderboard [] wDbC8 (("t1").toList) = none ∧
    update_mongodb_leaderboard [] wDbC8 (("t1").toList) = some wRowC8 :=
  leaderboard_sync_divergence [] wDbC8 (("t1").toList) wRowC8 (by decide) rfl

/-- C7: a push payload for repository `team-7-nlp` with the single commit
message `fix bug#3` produces exactly one submission write, keyed by team
`7` and bug `3`, whose record carries team id `7`, bug id `3` and domain
`nlp`; the bug id comes from the first matching commit-message pattern. -/
theorem webhook_single_commit_submission (env : VerifyEnv) :
    (∃ s : Submission,
      handle_github_webhook env (("push").toList) (some wPayloadC7) =
        (WebhookResponse.processed (("7").toList) 1, [(((("7").toList), 3), s)]) ∧
      s.team_id = ("7").toList ∧ s.bug_id = 3 ∧ s.domain = ("nlp").toList) ∧
    extract_bug_id (("fix bug#3").toList) = some 3 := by
  refine ⟨⟨log_bug_fix env (("7").toList) 3 (("nlp").toList) (("abc123").toList)
    (("fix bug#3").toList) (("org/team-7-nlp").toList), ?_, rfl, rfl, rfl⟩, rfl⟩
  rfl

theorem lexLe_iff (a b : Chars) : lexLe a b = true ↔ a ≤ b := by
  simp [lexLe, lexLt, not_lt]

theorem lexLt_iff (a b : Chars) : lexLt a b = true ↔ a < b := by
  simp [lexLt]

theorem lbLe_trans (a b c : LBEntry) (h1 : lbLe a b = true) (h2 : lbLe b c = true) :
    lbLe a c = true := by
  simp only [lbLe, Bool.or_eq_true, Bool.and_eq_true, decide_eq_true_eq, beq_iff_eq,
    lexLe_iff] at h1 h2 ⊢
  rcases h1 with h1 | ⟨h1e, h1t⟩ <;> rcases h2 with h2 | ⟨h2e, h2t⟩
  · exact Or.inl (lt_trans h2 h1)
  · exact Or.inl (by omega)
  · exact Or.inl (by omega)
  · exact Or.inr ⟨by omega, le_trans h1t h2t⟩

theorem lbLe_total (a b : LBEntry) : (lbLe a b || lbLe b a) = true := by
  simp only [lbLe, Bool.or_eq_true, Bool.and_eq_true, decide_eq_true_eq, beq_iff_eq,
    lexLe_iff]
  rcases lt_trichotomy a.total_points b.total_points with h | h | h
  · exact Or.inr (Or.inl h)
  · rcases le_total (tsKey a) (tsKey b) with ht | ht
    · exact Or.inl (Or.inr ⟨h, ht⟩)
    · exact Or.inr (Or.inr ⟨h.symm, ht⟩)
  · exact Or.inl (Or.inl h)

theorem compute_leaderboard_getElem? (ps : List Progress) (k : Nat) (e : LBEntry)
    (he : (compute_leaderboard ps)[k]? = some e) :
    ∃ (hk : k < ((ps.map progressToEntry).mergeSort lbLe).length),
      e = { ((ps.map progressToEntry).mergeSort lbLe)[k] with rank := k + 1 } := by
  unfold compute_leaderboard at he
  simp only [List.getElem?_map, List.getElem?_enum] at he
  cases hs : ((ps.map progressToEntry).mergeSort lbLe)[k]? with
  | none => rw [hs] at he; simp at he
  | some x =>
    rw [hs] at he
    simp only [Option.map_some'] at he
    obtain ⟨hk, hx⟩ := List.getElem?_eq_some.mp hs
    refine ⟨hk, ?_⟩
    rw [hx]
    exact (Option.some.injEq _ _ ▸ he).symm

/-- C2: in the leaderboard produced by `update_leaderboard`, an entry with
strictly more total points is ranked strictly better; among entries with
equal points, a strictly earlier last-submission key ranks strictly better;
and the entry at position `i` carries rank `i + 1`, so ranks are the
consecutive integers `1..n`. -/
theorem leaderboard_order_and_ranks (ps : List Progress) (i j : Nat) (a b : LBEntry)
    (ha : (compute_leaderboard ps)[i]? = some a)
    (hb : (compute_leaderboard ps)[j]? = some b) :
    (b.total_points < a.total_points → a.rank < b.rank) ∧
    (a.total_points = b.total_points → lexLt (tsKey a) (tsKey b) = true → a.rank < b.rank) ∧
    a.rank = i + 1 := by
  obtain ⟨hi, hai⟩ := compute_leaderboard_getElem? ps i a ha
  obtain ⟨hj, hbj⟩ := compute_leaderboard_getElem? ps j b hb
  set sorted := (ps.map progressToEntry).mergeSort lbLe with hsorted
  have hpw : List.Pairwise (fun x y => lbLe x y = true) sorted :=
    List.sorted_mergeSort lbLe_trans lbLe_total _
  have hidx : ∀ {k l : Nat} (hk : k < sorted.length) (hl : l < sorted.length), k < l →
      lbLe (sorted[k]) (sorted[l]) = true := by
    intro k l hk hl hkl
    exact List.pairwise_iff_getElem.mp hpw _ _ hk hl hkl
  have harank : a.rank = i + 1 := by rw [hai]
  have hbrank : b.rank = j + 1 := by rw [hbj]
  have hapts : a.total_points = (sorted[i]).total_points := by rw [hai]
  have hbpts : b.total_points = (sorted[j]).total_points := by rw [hbj]
  have hats : tsKey a = tsKey (sorted[i]) := by rw [hai]; rfl
  have hbts : tsKey b = tsKey (sorted[j]) := by rw [hbj]; rfl
  refine ⟨?_, ?_, harank⟩
  · intro hlt
    rw [harank, hbrank]
    have hij : i < j := by
      by_contra hc
      push_neg at hc
      rcases Nat.lt_or_ge j i with hji | hji
      · have := hidx hj hi hji
        simp only [lbLe, Bool.or_eq_true, Bool.and_eq_true, decide_eq_true_eq, beq_iff_eq,
          lexLe_iff] at this
        rw [← hapts, ← hbpts] at this
        rcases this with h | ⟨h, _⟩ <;> omega
      · have hji2 : j = i := by omega
        subst hji2
        rw [hapts, hbpts] at hlt
        exact lt_irrefl _ hlt
    omega
  · intro heq hts
    rw [harank, hbrank]
    have hij : i < j := by
      by_contra hc
      push_neg at hc
      rcases Nat.lt_or_ge j i with hji | hji
      · have := hidx hj hi hji
        simp only [lbLe, Bool.or_eq_true, Bool.and_eq_true, decide_eq_true_eq, beq_iff_eq,
          lexLe_iff] at this
        rw [← hapts, ← hbpts] at this
        rw [lexLt_iff] at hts
        rw [← hats, ← hbts] at this
        rcases this with h | ⟨_, h⟩
        · omega
        · exact absurd hts (not_lt.mpr h)
      · have hji2 : j = i := by omega
        subst hji2
        rw [lexLt_iff, hats, hbts] at hts
        exact lt_irrefl _ hts
    omega

/-- Witness for C2 at a two-team leaderboard; team `b` has more points and
ranks first. -/
theorem leaderboard_order_and_ranks_witness :
    (wEntryJ.total_points < wEntryI.total_points → wEntryI.rank < wEntryJ.rank) ∧
    (wEntryI.total_points = wEntryJ.total_points →
      lexLt (tsKey wEntryI) (tsKey wEntryJ) = true → wEntryI.rank < wEntryJ.rank) ∧
    wEntryI.rank = 0 + 1 :=
  leaderboard_order_and_ranks [wProgA, wProgB] 0 1 wEntryI wEntryJ
    (by simp [compute_leaderboard, List.mergeSort, lbLe, lexLe, lexLt, tsKey,
      progressToEntry, wProgA, wProgB, wEntryI])
    (by simp [compute_leaderboard, List.mergeSort, lbLe, lexLe, lexLt, tsKey,
      progressToEntry, wProgA, wProgB, wEntryJ])
